import Mathlib

/-!
Shallow embedding of the risk repository's game engine
(src/gamestate.py together with src/agent.py), and theorems settling the
frozen claims about it.  Python ints that stay non-negative throughout the
claims' domains are modelled as Nat; randomness is modelled as an injectable
stream of naturals; fallible operations return Except.
-/

/-- CARD_TYPE_INFANTRY = 1 (gamestate.py line 15). -/
def CARD_TYPE_INFANTRY : Nat := 1

/-- CARD_TYPE_CAVALRY = 2 (gamestate.py line 16). -/
def CARD_TYPE_CAVALRY : Nat := 2

/-- CARD_TYPE_ARTILLERY = 3 (gamestate.py line 17). -/
def CARD_TYPE_ARTILLERY : Nat := 3

/-- Card = namedtuple('Card', ['node', 'type']) (gamestate.py line 21).
Node identities are modelled as Nat. -/
structure Card where
  node : Nat
  type : Nat
deriving DecidableEq

/-- The match's single random stream (the random module): an infinite
sequence of naturals with a read position. -/
structure Rng where
  seq : Nat → Nat
  pos : Nat

/-- Read one value off the stream. -/
def Rng.next (g : Rng) : Nat × Rng := (g.seq g.pos, ⟨g.seq, g.pos + 1⟩)

/-- random.randint(1, 6): a die roll in [1, 6]. -/
def randint6 (g : Rng) : Nat × Rng :=
  let p := g.next
  (1 + p.1 % 6, p.2)

/-- Insert into a descending-sorted list, keeping it descending. -/
def insertDesc (x : Nat) : List Nat → List Nat
  | [] => [x]
  | y :: ys => if y < x then x :: y :: ys else y :: insertDesc x ys

/-- sorted(l, reverse=True). -/
def sortDesc (l : List Nat) : List Nat := l.foldr insertDesc []

/-- n die rolls, drawn left to right from the stream. -/
def rollList : Nat → Rng → List Nat × Rng
  | 0, g => ([], g)
  | n + 1, g =>
    let p := randint6 g
    let rest := rollList n p.2
    (p.1 :: rest.1, rest.2)

/-- roll_dice (gamestate.py lines 180-181): n rolls sorted descending. -/
def roll_dice (n : Nat) (g : Rng) : List Nat × Rng :=
  let p := rollList n g
  (sortDesc p.1, p.2)

/-- The for-loop over zipped die pairs (gamestate.py lines 205-209).
The source decrements n_units_attack when r_atk > r_def and otherwise
decrements n_units_defend; this is embedded exactly as written. -/
def applyDice : List (Nat × Nat) → Nat → Nat → Nat × Nat
  | [], na, nd => (na, nd)
  | p :: rest, na, nd =>
    if p.2 < p.1 then applyDice rest (na - 1) nd
    else applyDice rest na (nd - 1)

/-- The battle while-loop of do_attack (gamestate.py lines 199-209), with
explicit fuel; na + nd units of fuel always suffice because every round
removes at least one unit (see battleAux_fuel below). -/
def battleAux (cont : Nat → Nat → Bool) : Nat → Nat → Nat → Rng → Nat × Nat × Rng
  | 0, na, nd, g => (na, nd, g)
  | fuel + 1, na, nd, g =>
    if 0 < na ∧ 0 < nd ∧ cont na nd = true then
      let pa := roll_dice (min na 3) g
      let pd := roll_dice (min nd 2) pa.2
      let r := applyDice (pa.1.zip pd.1) na nd
      battleAux cont fuel r.1 r.2 pd.2
    else (na, nd, g)

/-- The battle loop entered with enough fuel for any run. -/
def battle (cont : Nat → Nat → Bool) (na nd : Nat) (g : Rng) : Nat × Nat × Rng :=
  battleAux cont (na + nd) na nd g

/-- The mutable match state: the territory graph's node set, adjacency,
per-node player_id and n_units, the card bonus counter, the draw and
discard piles, the player id list and the per-player hands
(gamestate.py lines 96-101 and agent.py BaseAgent). -/
structure GameState where
  nodes : List Nat
  adj : Nat → Nat → Bool
  owner : Nat → Nat
  units : Nat → Nat
  cardBonus : Nat
  cards : List Card
  discards : List Card
  players : List Nat
  hands : Nat → List Card

/-- Point update of a node's unit count. -/
def GameState.setUnits (s : GameState) (v n : Nat) : GameState :=
  { s with units := fun x => if x = v then n else s.units x }

/-- Point update of a node's owner. -/
def GameState.setOwner (s : GameState) (v p : Nat) : GameState :=
  { s with owner := fun x => if x = v then p else s.owner x }

/-- Point update of one player's hand. -/
def updateHand (hands : Nat → List Card) (pid : Nat) (h : List Card) : Nat → List Card :=
  fun p => if p = pid then h else hands p

/-- [v for v in G.nodes if G.nodes[v]['player_id'] == player.id]. -/
def ownedNodes (s : GameState) (pid : Nat) : List Nat :=
  s.nodes.filter (fun v => s.owner v == pid)

/-- G.neighbors(v) over the fixed adjacency. -/
def neighborsOf (s : GameState) (v : Nat) : List Nat :=
  s.nodes.filter (fun w => s.adj v w)

/-- get_enemy_neighbors (gamestate.py lines 176-178). -/
def get_enemy_neighbors (s : GameState) (v : Nat) : List Nat :=
  (neighborsOf s v).filter (fun w => ! (s.owner v == s.owner w))

/-- The ValueError message raised by do_attack on a 1-unit source. -/
def attackErrMsg : String := "Attacking node does not have enough units!"

/-- do_attack (gamestate.py lines 183-220).  Returns the updated state, the
Python return value (True / False / the implicit None modelled as
some true / some false / none), and the advanced random stream. -/
def do_attack (cont : Nat → Nat → Bool) (s : GameState) (vAtk vDef : Nat) (g : Rng) :
    Except String (GameState × Option Bool × Rng) :=
  if s.units vAtk == 1 then Except.error attackErrMsg
  else
    let nA := s.units vAtk - 1
    let nD := s.units vDef
    let s1 := s.setUnits vAtk (s.units vAtk - nA)
    let s2 := s1.setUnits vDef (s1.units vDef - nD)
    let r := battle cont nA nD g
    if r.2.1 == 0 then
      Except.ok ((s2.setOwner vDef (s2.owner vAtk)).setUnits vDef r.1, some true, r.2.2)
    else if r.1 == 0 then
      Except.ok (s2.setUnits vDef (s2.units vDef + r.2.1), some false, r.2.2)
    else
      Except.ok (s2, none, r.2.2)

/-- itertools.combinations(l, n) in its emission order (lexicographic by
position). -/
def combinations : Nat → List Card → List (List Card)
  | 0, _ => [[]]
  | _ + 1, [] => []
  | n + 1, x :: xs => (combinations n xs).map (fun t => x :: t) ++ combinations (n + 1) xs

/-- get_card_trio (gamestate.py lines 160-174): the first size-3 combination
of the hand whose card-type sum is divisible by 3; when found, each of its
cards is removed from the hand (list.remove removes the first equal
element). -/
def get_card_trio (hand : List Card) : Option (List Card) × List Card :=
  match (combinations 3 hand).find? (fun t => (t.map Card.type).sum % 3 == 0) with
  | some trio => (some trio, trio.foldl (fun h c => h.erase c) hand)
  | none => (none, hand)

/-- Lines 234-243 of do_turn: reinforcement sizing and the card-trio trade,
operating on the owned-region count, the player's hand, the discard pile
and the match-global card bonus counter. -/
def computeReinforcements (ownedCount : Nat) (hand : List Card) (discards : List Card)
    (bonus : Nat) : Nat × List Card × List Card × Nat :=
  let n := max 3 (ownedCount / 3)
  match get_card_trio hand with
  | (some trio, hand1) => (n + bonus, hand1, discards ++ trio, bonus + 5)
  | (none, hand1) => (n, hand1, discards, bonus)

/-- self._current_card_bonus = 5 (gamestate.py line 98). -/
def initial_card_bonus : Nat := 5

/-- The ValueError message raised by random.choices on a zero weight total. -/
def choicesErrMsg : String := "Total of weights must be greater than zero"

/-- Cumulative-weight index selection of random.choices: the first index
whose cumulative weight exceeds the drawn value. -/
def pickIndex : List Nat → Nat → Nat
  | [], _ => 0
  | w :: ws, r => if r < w then 0 else pickIndex ws (r - w) + 1

/-- k weighted picks from the population. -/
def choicesGo (xs ws : List Nat) (total : Nat) : Nat → Rng → List Nat × Rng
  | 0, g => ([], g)
  | k + 1, g =>
    let p := g.next
    let idx := pickIndex ws (p.1 % total)
    let rest := choicesGo xs ws total k p.2
    (xs.getD idx 0 :: rest.1, rest.2)

/-- random.choices(population, weights, k): raises ValueError when the
weight total is not positive, otherwise makes k weighted picks. -/
def choices (xs ws : List Nat) (k : Nat) (g : Rng) : Except String (List Nat × Rng) :=
  if ws.sum == 0 then Except.error choicesErrMsg
  else Except.ok (choicesGo xs ws ws.sum k g)

/-- The placement loop of DefaultAgent.reinforce (agent.py lines 41-42). -/
def applyPlacements (s : GameState) (ps : List Nat) : GameState :=
  ps.foldl (fun t v => t.setUnits v (t.units v + 1)) s

/-- The threat weights of DefaultAgent.reinforce (agent.py lines 34-35):
for each owned node, the summed unit counts of its enemy neighbors. -/
def weightsOf (s : GameState) (pid : Nat) : List Nat :=
  (ownedNodes s pid).map (fun v => ((get_enemy_neighbors s v).map s.units).sum)

/-- DefaultAgent.reinforce (agent.py lines 27-44): weighted placements over
owned nodes, returning the updated state and set(placements). -/
def reinforce (s : GameState) (pid : Nat) (k : Nat) (g : Rng) :
    Except String (GameState × List Nat × Rng) :=
  match choices (ownedNodes s pid) (weightsOf s pid) k g with
  | Except.error e => Except.error e
  | Except.ok (placements, g1) =>
    Except.ok (applyPlacements s placements, placements.dedup, g1)

/-- An observable event: affected node ids and a message. -/
abbrev Event := List Nat × String

/-- The pre-battle message of do_turn (gamestate.py lines 256-259). -/
def preBattleMsg (s : GameState) (v w : Nat) : String :=
  "Player " ++ toString (s.owner v) ++ " attacking from " ++ toString v ++ " with " ++
    toString (s.units v) ++ " units, Player " ++ toString (s.owner w) ++
    " defending from " ++ toString w ++ " with " ++ toString (s.units w) ++ " units"

/-- The attack loop of do_turn (gamestate.py lines 252-271), draining the
agent's attack pairs; a raised error from do_attack aborts the turn. -/
def attackPhase (cont : Nat → Nat → Bool) :
    GameState → List (Nat × Nat) → Rng → Except String (GameState × List Event × Bool × Rng)
  | s, [], g => Except.ok (s, [], false, g)
  | s, (v, w) :: rest, g =>
    let ev1 : Event := ([v, w], preBattleMsg s v w)
    match do_attack cont s v w g with
    | Except.error e => Except.error e
    | Except.ok (s1, success, g1) =>
      let ev2 : Event :=
        ([v, w], if success == some true then "Attacking player won!" else "Defending player won!")
      match attackPhase cont s1 rest g1 with
      | Except.error e => Except.error e
      | Except.ok (s2, evs, succ2, g2) =>
        Except.ok (s2, ev1 :: ev2 :: evs, (success == some true || succ2), g2)

/-- The IndexError message raised by list.pop() on an empty list. -/
def popErrMsg : String := "pop from empty list"

/-- Lines 276-278 of do_turn: if attack_success, pop the last card of the
draw pile (raising on an empty pile) and append it to the player's hand. -/
def drawPhase (s : GameState) (pid : Nat) (attackSuccess : Bool) : Except String GameState :=
  if attackSuccess then
    match s.cards.getLast? with
    | none => Except.error popErrMsg
    | some c =>
      Except.ok { s with cards := s.cards.dropLast,
                         hands := updateHand s.hands pid (s.hands pid ++ [c]) }
  else Except.ok s

/-- random.shuffle modelled as repeated uniform pick-and-remove, with fuel
equal to the list length. -/
def shuffleAux : Nat → List Card → Rng → List Card × Rng
  | 0, _, g => ([], g)
  | fuel + 1, xs, g =>
    if xs.isEmpty then ([], g)
    else
      let p := g.next
      let i := p.1 % xs.length
      let rest := shuffleAux fuel (xs.eraseIdx i) p.2
      (xs.getD i ⟨0, 0⟩ :: rest.1, rest.2)

/-- random.shuffle of a whole list. -/
def shuffle (xs : List Card) (g : Rng) : List Card × Rng := shuffleAux xs.length xs g

/-- Lines 280-285 of do_turn: when the draw pile is empty at the end of the
turn, the discard pile is shuffled and becomes the new draw pile. -/
def reshufflePhase (s : GameState) (g : Rng) : GameState × Rng :=
  if s.cards.length == 0 then
    let p := shuffle s.discards g
    ({ s with cards := p.1, discards := [] }, p.2)
  else (s, g)

/-- Write the results of the trio trade back into the state: the player's
reduced hand, the grown discard pile and the bumped bonus counter. -/
def applyTrade (s : GameState) (pid : Nat) (hand1 : List Card) (dis1 : List Card)
    (bonus1 : Nat) : GameState :=
  { s with hands := updateHand s.hands pid hand1, discards := dis1, cardBonus := bonus1 }

/-- Lines 234-246 of do_turn: the trio trade followed by the agent's
reinforcement placement.  Returns the updated state, the reinforcement
count, the affected node set and the advanced stream. -/
def turnSetup (s : GameState) (pid : Nat) (g : Rng) :
    Except String (GameState × Nat × List Nat × Rng) :=
  match computeReinforcements (ownedNodes s pid).length (s.hands pid) s.discards s.cardBonus with
  | (n1, hand1, dis1, bonus1) =>
    match reinforce (applyTrade s pid hand1 dis1 bonus1) pid n1 g with
    | Except.error e => Except.error e
    | Except.ok (s2, upd, g1) => Except.ok (s2, n1, upd, g1)

/-- do_turn (gamestate.py lines 222-285).  The agent's decisions that the
source obtains by calling back into the player object (the drained
attack-pair generator and the continue predicate) are inputs; player.move()
of the default agent is a no-op.  Events are returned in emission order;
a raised error aborts the turn. -/
def do_turn (s : GameState) (pid : Nat) (attacks : List (Nat × Nat))
    (cont : Nat → Nat → Bool) (g : Rng) : Except String (GameState × List Event × Rng) :=
  if (ownedNodes s pid).length == 0 then Except.ok (s, [], g)
  else
    match turnSetup s pid g with
    | Except.error e => Except.error e
    | Except.ok (s2, n1, upd, g1) =>
      let ev1 : Event :=
        (upd, "Player " ++ toString pid ++ " placed " ++ toString n1 ++ " reinforcements")
      match attackPhase cont s2 attacks g1 with
      | Except.error e => Except.error e
      | Except.ok (s3, evs, attackSuccess, g2) =>
        match drawPhase s3 pid attackSuccess with
        | Except.error e => Except.error e
        | Except.ok s4 =>
          let p := reshufflePhase s4 g2
          Except.ok (p.1, ev1 :: evs, p.2)

/-- The multiset of cards held across a list of player hands. -/
def handsBag (players : List Nat) (hands : Nat → List Card) : Multiset Card :=
  (players.map (fun p => ((hands p : List Card) : Multiset Card))).sum

/-- The multiset union of draw pile, discard pile and all hands. -/
def cardBag (s : GameState) : Multiset Card :=
  (s.cards : Multiset Card) + (s.discards : Multiset Card) + handsBag s.players s.hands

/-- DefaultAgent.continue_attack (agent.py lines 73-74): always press on. -/
def contTrue : Nat → Nat → Bool := fun _ _ => true

/-- A continue predicate that retreats immediately. -/
def contFalse : Nat → Nat → Bool := fun _ _ => false

/-- A random stream that is constantly zero. -/
def gZero : Rng := ⟨fun _ => 0, 0⟩

/-- A random stream that is constantly five. -/
def gFive : Rng := ⟨fun _ => 5, 0⟩

/-- A stream whose first value is five and the rest zero: one attack die of
six followed by dice of one. -/
def gSixFirst : Rng := ⟨fun i => if i = 0 then 5 else 0, 0⟩

/-- A stream that is five at position 11 and zero elsewhere. -/
def gDefSix : Rng := ⟨fun i => if i = 11 then 5 else 0, 0⟩

/-- Fixture: player 1 holds node 0 with 2 units, player 2 holds node 1 with
1 unit, nodes 0 and 1 adjacent. -/
def fix21 : GameState :=
  { nodes := [0, 1], adj := fun a b => a + b == 1,
    owner := fun v => if v = 1 then 2 else 1,
    units := fun v => if v = 0 then 2 else 1,
    cardBonus := 5, cards := [], discards := [], players := [1, 2], hands := fun _ => [] }

/-- Fixture: like fix21 but with 3 units on node 0 and 2 units on node 1. -/
def fix32 : GameState :=
  { nodes := [0, 1], adj := fun a b => a + b == 1,
    owner := fun v => if v = 1 then 2 else 1,
    units := fun v => if v = 0 then 3 else 2,
    cardBonus := 5, cards := [], discards := [], players := [1, 2], hands := fun _ => [] }

/-- Fixture: empty draw pile, one discarded card, one unit everywhere. -/
def fixEmptyDeck : GameState :=
  { nodes := [0, 1], adj := fun a b => a + b == 1,
    owner := fun v => if v = 1 then 2 else 1, units := fun _ => 1,
    cardBonus := 5, cards := [], discards := [⟨0, 1⟩], players := [1, 2], hands := fun _ => [] }

/-- Fixture: empty deck and empty discards, but player 1 holds a tradable
trio and can conquer node 1. -/
def fixTrioNoDeck : GameState :=
  { nodes := [0, 1], adj := fun a b => a + b == 1,
    owner := fun v => if v = 1 then 2 else 1,
    units := fun v => if v = 0 then 2 else 1,
    cardBonus := 5, cards := [], discards := [],
    players := [1, 2],
    hands := fun p => if p = 1 then [⟨0, 1⟩, ⟨1, 2⟩, ⟨2, 3⟩] else [] }

/-- Fixture: player 1 holds nodes 0 (1 unit) and 2 (3 units), player 2
holds node 1 (5 units) adjacent to both. -/
def fixOneUnit : GameState :=
  { nodes := [0, 1, 2],
    adj := fun a b =>
      (a == 0 && b == 1) || (a == 1 && b == 0) || (a == 1 && b == 2) || (a == 2 && b == 1),
    owner := fun v => if v = 1 then 2 else 1,
    units := fun v => if v = 0 then 1 else if v = 1 then 5 else 3,
    cardBonus := 5, cards := [], discards := [], players := [1, 2], hands := fun _ => [] }

/-- Fixture: player 1 holds a trio, one card remains in the deck, no
attacks will happen. -/
def fixTrioDeck : GameState :=
  { nodes := [0, 1], adj := fun a b => a + b == 1,
    owner := fun v => if v = 1 then 2 else 1, units := fun _ => 1,
    cardBonus := 5, cards := [⟨3, 1⟩], discards := [],
    players := [1, 2],
    hands := fun p => if p = 1 then [⟨0, 1⟩, ⟨1, 2⟩, ⟨2, 3⟩] else [] }

/-- Fixture: player 1 owns the single isolated node 0, so every
reinforcement weight is zero. -/
def fixIsolated : GameState :=
  { nodes := [0], adj := fun _ _ => false, owner := fun _ => 1, units := fun _ => 3,
    cardBonus := 5, cards := [], discards := [], players := [1], hands := fun _ => [] }

/-- When no trio is found, get_card_trio leaves the hand unchanged. -/
theorem get_card_trio_fst_none (hand : List Card) (h : (get_card_trio hand).1 = none) :
    get_card_trio hand = (none, hand) := by
  unfold get_card_trio at h ⊢
  cases hf : (combinations 3 hand).find? (fun t => (t.map Card.type).sum % 3 == 0) with
  | none => rfl
  | some trio => rw [hf] at h; simp at h

/-- Claim C1: the spec says a pair with the attacker die strictly greater
removes a defending unit and every other pair removes an attacking unit.
The source (gamestate.py lines 205-209) does the opposite: the pair (6, 1)
removes an attacking unit, the tied pair (3, 3) removes a defending unit,
and a full do_attack in which the attacker's single die shows 6 against a
defender die of 1 ends with the defender winning. -/
theorem claim_C1_code_eval :
    applyDice [(6, 1)] 2 2 = (1, 2) ∧
    applyDice [(3, 3)] 2 2 = (2, 1) ∧
    ((do_attack contTrue fix21 0 1 gSixFirst).map fun out => (out.2.1, out.1.units 1, out.1.owner 1))
      = Except.ok (some false, 1, 2) :=
  ⟨rfl, rfl, rfl⟩

/-- Claim C2: when the continue predicate declines with both sides above
zero, do_attack falls through both end conditions: it returns None and the
surviving defender troops are NOT returned to the target, which is left
owned by the defender with 0 units (source 3 units, target 2 units, the
predicate declines immediately). -/
theorem claim_C2_code_eval :
    ((do_attack contFalse fix32 0 1 gZero).map fun out => (out.2.1, out.1.units 1, out.1.owner 1))
      = Except.ok (none, 0, 2) := rfl

/-- Claim C3: a draw attempted against an empty draw pile raises even though
the discard pile is non-empty (first conjunct: the pop precedes any
reshuffle); a turn with no conquest still reshuffles the discards into the
deck at its end (second conjunct); and a full turn in which the player
trades a trio and then conquers crashes on the draw despite the non-empty
discard pile (third conjunct). -/
theorem claim_C3_code_eval :
    drawPhase fixEmptyDeck 1 true = Except.error popErrMsg ∧
    ((do_turn fixEmptyDeck 1 [] contTrue gZero).map fun out => (out.1.cards, out.1.discards))
      = Except.ok ([⟨0, 1⟩], []) ∧
    do_turn fixTrioNoDeck 1 [(0, 1)] contTrue gDefSix = Except.error popErrMsg :=
  ⟨rfl, rfl, rfl⟩

/-- Claim C5: the reinforcement count is max(3, ownedRegionCount / 3); when
the hand holds a trio the trio moves to the discard pile, the current
match-global card bonus (initially 5, gamestate.py line 98) is added to the
count, and the bonus grows by 5. -/
theorem claim_C5 :
    initial_card_bonus = 5 ∧
    (∀ ownedCount bonus : Nat, ∀ hand dis : List Card,
        (get_card_trio hand).1 = none →
        computeReinforcements ownedCount hand dis bonus
          = (max 3 (ownedCount / 3), hand, dis, bonus)) ∧
    (∀ ownedCount bonus : Nat, ∀ hand dis trio hand1 : List Card,
        get_card_trio hand = (some trio, hand1) →
        computeReinforcements ownedCount hand dis bonus
          = (max 3 (ownedCount / 3) + bonus, hand1, dis ++ trio, bonus + 5)) := by
  refine ⟨rfl, ?_, ?_⟩
  · intro oc b hand dis h
    have h2 := get_card_trio_fst_none hand h
    unfold computeReinforcements
    rw [h2]
  · intro oc b hand dis trio hand1 h
    unfold computeReinforcements
    rw [h]

/-- Witness for claim C5 at a concrete hand holding the trio 1, 2, 3. -/
theorem claim_C5_witness :
    computeReinforcements 10 [⟨0, 1⟩, ⟨1, 2⟩, ⟨2, 3⟩] [⟨9, 2⟩] 7
      = (max 3 (10 / 3) + 7, [], [⟨9, 2⟩] ++ [⟨0, 1⟩, ⟨1, 2⟩, ⟨2, 3⟩], 7 + 5) :=
  claim_C5.2.2 10 7 [⟨0, 1⟩, ⟨1, 2⟩, ⟨2, 3⟩] [⟨9, 2⟩] [⟨0, 1⟩, ⟨1, 2⟩, ⟨2, 3⟩] [] rfl

/-- Claim C7: a turn for a player owning zero regions emits no events and
returns the state and stream untouched, so repetition is also a no-op. -/
theorem claim_C7 (s : GameState) (pid : Nat) (attacks : List (Nat × Nat))
    (cont : Nat → Nat → Bool) (g : Rng) (h : ownedNodes s pid = []) :
    do_turn s pid attacks cont g = Except.ok (s, [], g) := by
  unfold do_turn
  rw [h]
  rfl

/-- Witness for claim C7: player 3 owns nothing on the fixture board. -/
theorem claim_C7_witness :
    do_turn fixEmptyDeck 3 [] contTrue gZero = Except.ok (fixEmptyDeck, [], gZero) :=
  claim_C7 fixEmptyDeck 3 [] contTrue gZero (by decide)

/-- Claim C6: attacking from a region whose troop count is exactly 1 makes
do_attack raise before consuming any randomness or touching the state (the
error is returned for every stream and carries no state), and do_turn
propagates the error from its attack loop instead of catching it. -/
theorem claim_C6 :
    (∀ cont s v w g, s.units v = 1 → do_attack cont s v w g = Except.error attackErrMsg) ∧
    (∀ s pid v w rest cont g,
        ownedNodes s pid ≠ [] →
        (turnSetup s pid g).map (fun out => out.1.units v) = Except.ok 1 →
        do_turn s pid ((v, w) :: rest) cont g = Except.error attackErrMsg) := by
  have hA : ∀ cont s v w g, s.units v = 1 →
      do_attack cont s v w g = Except.error attackErrMsg := by
    intro cont s v w g h
    unfold do_attack
    rw [show (s.units v == 1) = true by simp [h]]
    rfl
  refine ⟨hA, ?_⟩
  intro s pid v w rest cont g hOwn hts
  have hlen : ((ownedNodes s pid).length == 0) = false := by
    simp only [beq_eq_false_iff_ne, ne_eq, List.length_eq_zero]
    exact hOwn
  unfold do_turn
  rw [hlen]
  simp only [Bool.false_eq_true, if_false]
  cases hsetup : turnSetup s pid g with
  | error e =>
    rw [hsetup] at hts
    simp [Except.map] at hts
  | ok out =>
    obtain ⟨s2, n1, upd, g1⟩ := out
    rw [hsetup] at hts
    simp only [Except.map] at hts
    injection hts with hu2
    have hatk : attackPhase cont s2 ((v, w) :: rest) g1 = Except.error attackErrMsg := by
      unfold attackPhase
      rw [hA cont s2 v w g1 hu2]
    simp only [hatk]

/-- Witness for claim C6: node 0 holds exactly one unit and survives the
reinforcement phase untouched, so the attack from it is fatal. -/
theorem claim_C6_witness :
    do_attack contTrue fixOneUnit 0 1 gFive = Except.error attackErrMsg ∧
    do_turn fixOneUnit 1 [(0, 1)] contTrue gFive = Except.error attackErrMsg :=
  ⟨claim_C6.1 contTrue fixOneUnit 0 1 gFive rfl,
   claim_C6.2 fixOneUnit 1 0 1 [] contTrue gFive (by decide) rfl⟩

/-- Claim C10: every do_attack between two distinct regions whose source
holds at least two units (so the call does not raise) leaves the source
with exactly one unit and its owner unchanged, whatever the battle
outcome. -/
theorem claim_C10 (cont : Nat → Nat → Bool) (s : GameState) (v w : Nat) (g : Rng)
    (hvw : v ≠ w) (h2 : 2 ≤ s.units v) :
    (do_attack cont s v w g).map (fun out => (out.1.units v, out.1.owner v))
      = Except.ok (1, s.owner v) := by
  have hne : (s.units v == 1) = false := by
    simp only [beq_eq_false_iff_ne, ne_eq]
    omega
  have hwv : w ≠ v := fun hh => hvw hh.symm
  unfold do_attack
  rw [hne]
  simp only [Bool.false_eq_true, if_false]
  rcases hb : battle cont (s.units v - 1) (s.units w) g with ⟨na, nd, g2⟩
  simp only [hb]
  split
  · simp [Except.map, GameState.setUnits, GameState.setOwner, hvw, hwv]
    omega
  · split
    · simp [Except.map, GameState.setUnits, hvw, hwv]
      omega
    · simp [Except.map, GameState.setUnits, hvw, hwv]
      omega

/-- Witness for claim C10 at the concrete two-node fixture. -/
theorem claim_C10_witness :
    (do_attack contTrue fix21 0 1 gZero).map (fun out => (out.1.units 0, out.1.owner 0))
      = Except.ok (1, 1) :=
  claim_C10 contTrue fix21 0 1 gZero (by decide) (by decide)

/-- Membership in combinations is exactly being a sublist of the given
length (itertools.combinations emits all index-increasing selections). -/
theorem mem_combinations (n : Nat) (l t : List Card) :
    t ∈ combinations n l ↔ List.Sublist t l ∧ t.length = n := by
  induction l generalizing n t with
  | nil =>
    cases n with
    | zero =>
      simp only [combinations, List.mem_singleton]
      constructor
      · rintro rfl
        exact ⟨List.nil_sublist [], rfl⟩
      · rintro ⟨hs, hl⟩
        exact List.length_eq_zero.mp hl
    | succ n =>
      simp only [combinations, List.not_mem_nil, false_iff, not_and]
      intro hs
      have ht := List.sublist_nil.mp hs
      subst ht
      simp
  | cons x xs ih =>
    cases n with
    | zero =>
      simp only [combinations, List.mem_singleton]
      constructor
      · rintro rfl
        exact ⟨List.nil_sublist _, rfl⟩
      · rintro ⟨hs, hl⟩
        exact List.length_eq_zero.mp hl
    | succ n =>
      simp only [combinations, List.mem_append, List.mem_map]
      constructor
      · rintro (⟨t1, ht1, rfl⟩ | ht)
        · obtain ⟨hs, hl⟩ := (ih n t1).mp ht1
          exact ⟨hs.cons₂ x, by simp [hl]⟩
        · obtain ⟨hs, hl⟩ := (ih (n + 1) t).mp ht
          exact ⟨hs.cons x, hl⟩
      · rintro ⟨hs, hl⟩
        cases t with
        | nil => simp at hl
        | cons y t1 =>
          cases hs with
          | cons b hh => exact Or.inr ((ih (n + 1) (y :: t1)).mpr ⟨hh, hl⟩)
          | cons₂ b hh => exact Or.inl ⟨t1, (ih n t1).mpr ⟨hh, by simpa using hl⟩, rfl⟩

/-- Claim C4: get_card_trio finds a trio exactly when some three cards of
the hand have type values summing to a multiple of 3; a hand with exactly
the types 1, 1, 2 in any order yields no trio and keeps the hand, while a
hand with exactly the types 1, 2, 3 yields a trio and empties the hand. -/
theorem claim_C4 :
    (∀ hand : List Card,
        (get_card_trio hand).1.isSome = true ↔
          ∃ t, List.Sublist t hand ∧ t.length = 3 ∧ (t.map Card.type).sum % 3 = 0) ∧
    (∀ hand : List Card, (hand.map Card.type).Perm [1, 1, 2] →
        get_card_trio hand = (none, hand)) ∧
    (∀ hand : List Card, (hand.map Card.type).Perm [1, 2, 3] →
        (get_card_trio hand).1.isSome = true ∧ (get_card_trio hand).2 = []) := by
  refine ⟨?_, ?_, ?_⟩
  · intro hand
    unfold get_card_trio
    cases hf : (combinations 3 hand).find? (fun t => (t.map Card.type).sum % 3 == 0) with
    | none =>
      rw [List.find?_eq_none] at hf
      simp only [Option.isSome_none, Bool.false_eq_true, false_iff, not_exists]
      rintro t ⟨hs, hl, hm⟩
      have hmem := (mem_combinations 3 hand t).mpr ⟨hs, hl⟩
      have hpt := hf t hmem
      simp [hm] at hpt
    | some trio =>
      simp only [Option.isSome_some, true_iff]
      have hmem := List.mem_of_find?_eq_some hf
      have hp := List.find?_some hf
      obtain ⟨hs, hl⟩ := (mem_combinations 3 hand trio).mp hmem
      refine ⟨trio, hs, hl, ?_⟩
      simpa using hp
  · intro hand hperm
    have hlen : hand.length = 3 := by
      have h1 := hperm.length_eq
      simpa using h1
    obtain _ | ⟨a, _ | ⟨b, _ | ⟨c, _ | ⟨d, rest⟩⟩⟩⟩ := hand
    · simp at hlen
    · simp at hlen
    · simp at hlen
    case cons.cons.cons.cons => simp at hlen
    have hsum : a.type + (b.type + c.type) = 4 := by
      have h1 := hperm.sum_eq
      simp at h1
      omega
    unfold get_card_trio
    rw [show combinations 3 [a, b, c] = [[a, b, c]] from rfl]
    simp [List.find?, hsum]
  · intro hand hperm
    have hlen : hand.length = 3 := by
      have h1 := hperm.length_eq
      simpa using h1
    obtain _ | ⟨a, _ | ⟨b, _ | ⟨c, _ | ⟨d, rest⟩⟩⟩⟩ := hand
    · simp at hlen
    · simp at hlen
    · simp at hlen
    case cons.cons.cons.cons => simp at hlen
    have hsum : a.type + (b.type + c.type) = 6 := by
      have h1 := hperm.sum_eq
      simp at h1
      omega
    have hg : get_card_trio [a, b, c] = (some [a, b, c], []) := by
      unfold get_card_trio
      rw [show combinations 3 [a, b, c] = [[a, b, c]] from rfl]
      simp [List.find?, hsum, List.erase_cons_head]
    rw [hg]
    exact ⟨rfl, rfl⟩

/-- Witness for claim C4 at concrete hands of types 1, 1, 2 and 1, 2, 3. -/
theorem claim_C4_witness :
    get_card_trio [⟨0, 1⟩, ⟨1, 1⟩, ⟨2, 2⟩] = (none, [⟨0, 1⟩, ⟨1, 1⟩, ⟨2, 2⟩]) ∧
    ((get_card_trio [⟨0, 1⟩, ⟨1, 2⟩, ⟨2, 3⟩]).1.isSome = true ∧
      (get_card_trio [⟨0, 1⟩, ⟨1, 2⟩, ⟨2, 3⟩]).2 = []) ∧
    ((get_card_trio [⟨0, 1⟩, ⟨1, 2⟩, ⟨2, 3⟩]).1.isSome = true ↔
      ∃ t, List.Sublist t [⟨0, 1⟩, ⟨1, 2⟩, ⟨2, 3⟩] ∧ t.length = 3 ∧
        (t.map Card.type).sum % 3 = 0) :=
  ⟨claim_C4.2.1 [⟨0, 1⟩, ⟨1, 1⟩, ⟨2, 2⟩] (by decide),
   claim_C4.2.2 [⟨0, 1⟩, ⟨1, 2⟩, ⟨2, 3⟩] (by decide),
   claim_C4.1 [⟨0, 1⟩, ⟨1, 2⟩, ⟨2, 3⟩]⟩

/-- A drawn value below the weight total selects a valid index. -/
theorem pickIndex_lt (ws : List Nat) (r : Nat) (h : r < ws.sum) :
    pickIndex ws r < ws.length := by
  induction ws generalizing r with
  | nil => simp at h
  | cons w ws ih =>
    unfold pickIndex
    by_cases hr : r < w
    · rw [if_pos hr]
      simp
    · rw [if_neg hr]
      have h2 : r - w < ws.sum := by
        simp only [List.sum_cons] at h
        omega
      have h3 := ih (r - w) h2
      simp only [List.length_cons]
      omega

/-- choicesGo draws exactly k picks. -/
theorem choicesGo_length (xs ws : List Nat) (total k : Nat) (g : Rng) :
    ((choicesGo xs ws total k g).1).length = k := by
  induction k generalizing g with
  | zero => rfl
  | succ k ih => simp [choicesGo, ih]

/-- Every pick of choicesGo is a member of the population. -/
theorem choicesGo_mem (xs ws : List Nat) (k : Nat) (g : Rng)
    (htot : ws.sum ≠ 0) (hlen : ws.length = xs.length) :
    ∀ y ∈ (choicesGo xs ws ws.sum k g).1, y ∈ xs := by
  induction k generalizing g with
  | zero =>
    intro y hy
    simp [choicesGo] at hy
  | succ k ih =>
    intro y hy
    simp only [choicesGo, List.mem_cons] at hy
    rcases hy with rfl | hy
    · have hr : g.next.1 % ws.sum < ws.sum := Nat.mod_lt _ (Nat.pos_of_ne_zero htot)
      have hidx : pickIndex ws (g.next.1 % ws.sum) < xs.length := by
        rw [← hlen]
        exact pickIndex_lt ws _ hr
      rw [List.getD_eq_getElem xs 0 hidx]
      exact List.getElem_mem hidx
    · exact ih g.next.2 y hy

/-- Each placement adds one unit to its node and nothing else. -/
theorem applyPlacements_units (ps : List Nat) (s : GameState) (v : Nat) :
    (applyPlacements s ps).units v = s.units v + List.count v ps := by
  induction ps generalizing s with
  | nil => simp [applyPlacements]
  | cons p ps ih =>
    show (applyPlacements (s.setUnits p (s.units p + 1)) ps).units v = _
    rw [ih]
    simp only [GameState.setUnits]
    by_cases hv : v = p
    · subst hv
      simp [List.count_cons]
      omega
    · have hpv : (p == v) = false := by
        simp only [beq_eq_false_iff_ne, ne_eq]
        exact fun hh => hv hh.symm
      simp [List.count_cons, hv, hpv]

/-- Placements change only unit counts. -/
theorem applyPlacements_frame (ps : List Nat) (s : GameState) :
    (applyPlacements s ps).nodes = s.nodes ∧ (applyPlacements s ps).adj = s.adj ∧
    (applyPlacements s ps).owner = s.owner ∧ (applyPlacements s ps).cardBonus = s.cardBonus ∧
    (applyPlacements s ps).cards = s.cards ∧ (applyPlacements s ps).discards = s.discards ∧
    (applyPlacements s ps).players = s.players ∧ (applyPlacements s ps).hands = s.hands := by
  induction ps generalizing s with
  | nil => exact ⟨rfl, rfl, rfl, rfl, rfl, rfl, rfl, rfl⟩
  | cons p ps ih => exact ih (s.setUnits p (s.units p + 1))

/-- Sums of pointwise sums of two maps split. -/
theorem sum_map_add_nat (l : List Nat) (f f2 : Nat → Nat) :
    (l.map (fun v => f v + f2 v)).sum = (l.map f).sum + (l.map f2).sum := by
  induction l with
  | nil => rfl
  | cons x l ih =>
    simp only [List.map_cons, List.sum_cons, ih]
    omega

/-- The indicator of an absent element sums to zero. -/
theorem sum_map_indicator_zero (l : List Nat) (p : Nat) (hp : p ∉ l) :
    (l.map (fun v => if p = v then 1 else 0)).sum = 0 := by
  induction l with
  | nil => rfl
  | cons x l ih =>
    have hpx : ¬(p = x) := fun hh => hp (hh ▸ List.mem_cons_self x l)
    have hnl : p ∉ l := fun hh => hp (List.mem_cons_of_mem x hh)
    simp [hpx, ih hnl]

/-- The indicator of a present element sums to one over a nodup list. -/
theorem sum_map_indicator (l : List Nat) (p : Nat) (hp : p ∈ l) (hnd : l.Nodup) :
    (l.map (fun v => if p = v then 1 else 0)).sum = 1 := by
  induction l with
  | nil => simp at hp
  | cons x l ih =>
    rcases List.mem_cons.mp hp with rfl | hpl
    · have hnot : p ∉ l := (List.nodup_cons.mp hnd).1
      simp [sum_map_indicator_zero l p hnot]
    · have hx : ¬(p = x) := by
        intro hh
        subst hh
        exact (List.nodup_cons.mp hnd).1 hpl
      simp [hx, ih hpl (List.nodup_cons.mp hnd).2]

/-- Counting every member of a nodup index list recovers the length. -/
theorem sum_count_eq_length (nodes ps : List Nat) (hnd : nodes.Nodup)
    (hsub : ∀ p ∈ ps, p ∈ nodes) :
    (nodes.map (fun v => List.count v ps)).sum = ps.length := by
  induction ps with
  | nil => simp
  | cons p ps ih =>
    have hp : p ∈ nodes := hsub p (List.mem_cons_self p ps)
    have hsub2 : ∀ q ∈ ps, q ∈ nodes := fun q hq => hsub q (List.mem_cons_of_mem p hq)
    have hcc : ∀ v, List.count v (p :: ps) = List.count v ps + (if p = v then 1 else 0) := by
      intro v
      simp [List.count_cons, beq_iff_eq]
    calc (nodes.map fun v => List.count v (p :: ps)).sum
        = (nodes.map fun v => List.count v ps + (if p = v then 1 else 0)).sum := by
          simp only [hcc]
      _ = (nodes.map fun v => List.count v ps).sum
            + (nodes.map fun v => if p = v then 1 else 0).sum :=
          sum_map_add_nat nodes (fun v => List.count v ps) (fun v => if p = v then 1 else 0)
      _ = ps.length + 1 := by rw [ih hsub2, sum_map_indicator nodes p hp hnd]
      _ = (p :: ps).length := by simp

/-- Claim C8 counterexample: on fixIsolated, player 1 owns a region, every
enemy-neighbor weight is zero, and reinforce raises the zero-total-weight
error instead of completing without error. -/
theorem claim_C8_counterexample :
    ownedNodes fixIsolated 1 ≠ [] ∧
    reinforce fixIsolated 1 3 gZero = Except.error choicesErrMsg :=
  ⟨by decide, rfl⟩

/-- Claim C8 (amended): when some owned region has positive enemy-neighbor
weight, reinforce succeeds, places exactly k troops over regions the player
owns, and returns exactly the set of regions that received at least one
troop; when every weight is zero it raises instead (see the
counterexample). -/
theorem claim_C8_amended (s : GameState) (pid k : Nat) (g : Rng)
    (hnd : s.nodes.Nodup) (hw : (weightsOf s pid).sum ≠ 0) :
    ∃ s2 updates g1, reinforce s pid k g = Except.ok (s2, updates, g1) ∧
      (s.nodes.map (fun v => s2.units v - s.units v)).sum = k ∧
      (∀ v, v ∈ updates ↔ s.units v < s2.units v) ∧
      (∀ v, v ∈ updates → s.owner v = pid) := by
  have hwb : ((weightsOf s pid).sum == 0) = false := by
    simp only [beq_eq_false_iff_ne, ne_eq]
    exact hw
  have hlen : (weightsOf s pid).length = (ownedNodes s pid).length := by
    unfold weightsOf
    exact List.length_map _ _
  rcases hcg : choicesGo (ownedNodes s pid) (weightsOf s pid) (weightsOf s pid).sum k g
    with ⟨ps, g1⟩
  have hpslen : ps.length = k := by
    have h2 := choicesGo_length (ownedNodes s pid) (weightsOf s pid) (weightsOf s pid).sum k g
    rw [hcg] at h2
    exact h2
  have hpsmem : ∀ p ∈ ps, p ∈ ownedNodes s pid := by
    intro p hp
    exact choicesGo_mem (ownedNodes s pid) (weightsOf s pid) k g hw hlen p (by rw [hcg]; exact hp)
  refine ⟨applyPlacements s ps, ps.dedup, g1, ?_, ?_, ?_, ?_⟩
  · unfold reinforce choices
    rw [hwb]
    simp only [Bool.false_eq_true, if_false, hcg]
  · have hmem : ∀ p ∈ ps, p ∈ s.nodes := by
      intro p hp
      exact (List.mem_filter.mp (hpsmem p hp)).1
    have hpt : ∀ v, (applyPlacements s ps).units v - s.units v = List.count v ps := by
      intro v
      rw [applyPlacements_units]
      omega
    simp only [hpt]
    rw [sum_count_eq_length s.nodes ps hnd hmem]
    exact hpslen
  · intro v
    rw [List.mem_dedup, ← List.count_pos_iff, applyPlacements_units]
    omega
  · intro v hv
    have h3 := (List.mem_filter.mp (hpsmem v (List.mem_dedup.mp hv))).2
    simpa using h3

/-- Witness for the amended claim C8 on the two-node fixture. -/
theorem claim_C8_witness :
    ∃ s2 updates g1, reinforce fix21 1 4 gZero = Except.ok (s2, updates, g1) ∧
      (fix21.nodes.map (fun v => s2.units v - fix21.units v)).sum = 4 ∧
      (∀ v, v ∈ updates ↔ fix21.units v < s2.units v) ∧
      (∀ v, v ∈ updates → fix21.owner v = 1) :=
  claim_C8_amended fix21 1 4 gZero (by decide) (by decide)

/-- Dropping the head of a sublist survives erasing that head element. -/
theorem sublist_erase_of_cons_sublist (a : Card) (t : List Card) :
    ∀ h : List Card, List.Sublist (a :: t) h → List.Sublist t (h.erase a) := by
  intro h
  induction h with
  | nil =>
    intro hs
    have h2 := List.sublist_nil.mp hs
    exact absurd h2 (by simp)
  | cons b h2 ih =>
    intro hs
    cases hs with
    | cons c hh =>
      by_cases hba : b = a
      · subst hba
        rw [List.erase_cons_head]
        exact (List.sublist_cons_self b t).trans hh
      · rw [List.erase_cons_tail (by simp [hba])]
        exact (ih hh).cons b
    | cons₂ c hh =>
      rw [List.erase_cons_head]
      exact hh

/-- Erasing a sublist one element at a time splits the multiset. -/
theorem coe_eq_foldl_erase_add (t : List Card) :
    ∀ h : List Card, List.Sublist t h →
      (h : Multiset Card)
        = ((t.foldl (fun x c => x.erase c) h : List Card) : Multiset Card)
          + (t : Multiset Card) := by
  induction t with
  | nil =>
    intro h _
    simp
  | cons a t ih =>
    intro h hs
    have ha : a ∈ h := hs.subset (List.mem_cons_self a t)
    have h1 : (h : Multiset Card) = a ::ₘ ((h.erase a : List Card) : Multiset Card) := by
      rw [Multiset.coe_eq_coe.mpr (List.perm_cons_erase ha)]
      rfl
    have h2 := ih (h.erase a) (sublist_erase_of_cons_sublist a t h hs)
    show (h : Multiset Card)
        = ((t.foldl (fun x c => x.erase c) (h.erase a) : List Card) : Multiset Card)
          + ((a :: t : List Card) : Multiset Card)
    rw [h1, h2, show ((a :: t : List Card) : Multiset Card) = a ::ₘ (t : Multiset Card) from rfl]
    rw [Multiset.add_cons]

/-- A found trio splits the hand's multiset into remainder plus trio. -/
theorem get_card_trio_some_bag (hand trio hand1 : List Card)
    (h : get_card_trio hand = (some trio, hand1)) :
    (hand : Multiset Card) = (hand1 : Multiset Card) + (trio : Multiset Card) := by
  unfold get_card_trio at h
  cases hf : (combinations 3 hand).find? (fun t => (t.map Card.type).sum % 3 == 0) with
  | none =>
    rw [hf] at h
    exact absurd h (by simp)
  | some trio2 =>
    rw [hf] at h
    have hmem := List.mem_of_find?_eq_some hf
    have hsub := ((mem_combinations 3 hand trio2).mp hmem).1
    injection h with h1 h2
    injection h1 with h1
    subst h1
    subst h2
    exact coe_eq_foldl_erase_add trio2 hand hsub

/-- Updating the hand of an absent player id changes no counted hand. -/
theorem handsBag_update_not_mem (players : List Nat) (hands : Nat → List Card)
    (pid : Nat) (nh : List Card) (hp : pid ∉ players) :
    handsBag players (updateHand hands pid nh) = handsBag players hands := by
  induction players with
  | nil => rfl
  | cons q qs ih =>
    have hq : ¬(q = pid) := fun hh => hp (hh ▸ List.mem_cons_self q qs)
    have hqs : pid ∉ qs := fun hh => hp (List.mem_cons_of_mem q hh)
    show ((updateHand hands pid nh q : List Card) : Multiset Card)
        + handsBag qs (updateHand hands pid nh)
      = ((hands q : List Card) : Multiset Card) + handsBag qs hands
    rw [show updateHand hands pid nh q = hands q from by simp [updateHand, hq]]
    rw [ih hqs]

/-- Replacing one player's hand shifts the hands multiset accordingly. -/
theorem handsBag_update (players : List Nat) (hands : Nat → List Card)
    (pid : Nat) (nh : List Card) (hnd : players.Nodup) (hmem : pid ∈ players) :
    handsBag players (updateHand hands pid nh) + ((hands pid : List Card) : Multiset Card)
      = handsBag players hands + (nh : Multiset Card) := by
  induction players with
  | nil => simp at hmem
  | cons q qs ih =>
    rcases List.mem_cons.mp hmem with rfl | hqs
    · have hnot : pid ∉ qs := (List.nodup_cons.mp hnd).1
      show ((updateHand hands pid nh pid : List Card) : Multiset Card)
          + handsBag qs (updateHand hands pid nh)
          + ((hands pid : List Card) : Multiset Card)
        = ((hands pid : List Card) : Multiset Card) + handsBag qs hands + (nh : Multiset Card)
      rw [show updateHand hands pid nh pid = nh from by simp [updateHand]]
      rw [handsBag_update_not_mem qs hands pid nh hnot]
      abel
    · have hq : ¬(q = pid) := by
        intro hh
        subst hh
        exact (List.nodup_cons.mp hnd).1 hqs
      have ih2 := ih (List.nodup_cons.mp hnd).2 hqs
      show ((updateHand hands pid nh q : List Card) : Multiset Card)
          + handsBag qs (updateHand hands pid nh)
          + ((hands pid : List Card) : Multiset Card)
        = ((hands q : List Card) : Multiset Card) + handsBag qs hands + (nh : Multiset Card)
      rw [show updateHand hands pid nh q = hands q from by simp [updateHand, hq]]
      rw [add_assoc, ih2, ← add_assoc]

/-- do_attack never touches the card piles, the player list or the hands. -/
theorem do_attack_cards_frame (cont : Nat → Nat → Bool) (s : GameState) (v w : Nat)
    (g : Rng) (out : GameState × Option Bool × Rng)
    (h : do_attack cont s v w g = Except.ok out) :
    out.1.cards = s.cards ∧ out.1.discards = s.discards ∧
    out.1.players = s.players ∧ out.1.hands = s.hands := by
  by_cases h1 : (s.units v == 1) = true
  · unfold do_attack at h
    rw [if_pos h1] at h
    exact Except.noConfusion h
  · rcases hbt : battle cont (s.units v - 1) (s.units w) g with ⟨na, nd, g2⟩
    simp only [do_attack, h1, if_false, hbt] at h
    split at h
    · exact Except.noConfusion h
    · split at h
      · injection h with h2
        subst h2
        exact ⟨rfl, rfl, rfl, rfl⟩
      · split at h
        · injection h with h2
          subst h2
          exact ⟨rfl, rfl, rfl, rfl⟩
        · injection h with h2
          subst h2
          exact ⟨rfl, rfl, rfl, rfl⟩

/-- The attack loop never touches the card piles, players or hands. -/
theorem attackPhase_cards_frame (cont : Nat → Nat → Bool) (attacks : List (Nat × Nat)) :
    ∀ (s : GameState) (g : Rng) (out : GameState × List Event × Bool × Rng),
      attackPhase cont s attacks g = Except.ok out →
      out.1.cards = s.cards ∧ out.1.discards = s.discards ∧
      out.1.players = s.players ∧ out.1.hands = s.hands := by
  induction attacks with
  | nil =>
    intro s g out h
    unfold attackPhase at h
    injection h with h2
    subst h2
    exact ⟨rfl, rfl, rfl, rfl⟩
  | cons vw rest ih =>
    intro s g out h
    obtain ⟨v, w⟩ := vw
    unfold attackPhase at h
    cases hda : do_attack cont s v w g with
    | error e =>
      rw [hda] at h
      exact Except.noConfusion h
    | ok res =>
      obtain ⟨s1, success, g1⟩ := res
      simp only [hda] at h
      cases hap : attackPhase cont s1 rest g1 with
      | error e =>
        simp only [hap] at h
        exact Except.noConfusion h
      | ok res2 =>
        obtain ⟨s2, evs, succ2, g2⟩ := res2
        simp only [hap] at h
        injection h with h2
        subst h2
        have hf1 := do_attack_cards_frame cont s v w g (s1, success, g1) hda
        have hf2 := ih s1 g1 (s2, evs, succ2, g2) hap
        exact ⟨hf2.1.trans hf1.1, (hf2.2.1).trans hf1.2.1,
          (hf2.2.2.1).trans hf1.2.2.1, (hf2.2.2.2).trans hf1.2.2.2⟩

/-- States agreeing on piles, players and hands have the same card bag. -/
theorem cardBag_congr (s1 s2 : GameState) (hc : s1.cards = s2.cards)
    (hd : s1.discards = s2.discards) (hp : s1.players = s2.players)
    (hh : s1.hands = s2.hands) : cardBag s1 = cardBag s2 := by
  unfold cardBag handsBag
  rw [hc, hd, hp, hh]

/-- A list with a last element is its dropLast plus that element. -/
theorem getLast_decomp (l : List Card) (c : Card) (h : l.getLast? = some c) :
    l = l.dropLast ++ [c] := by
  induction l with
  | nil => exact Option.noConfusion h
  | cons a l ih =>
    cases l with
    | nil =>
      have h2 : a = c := by
        injection h
      subst h2
      rfl
    | cons b l2 =>
      rw [List.getLast?_cons_cons] at h
      have h2 := ih h
      show a :: b :: l2 = a :: (b :: l2).dropLast ++ [c]
      rw [List.cons_append]
      rw [← h2]

/-- drawPhase preserves the card bag and the player list. -/
theorem drawPhase_bag (s : GameState) (pid : Nat) (b : Bool) (s4 : GameState)
    (h : drawPhase s pid b = Except.ok s4) (hnd : s.players.Nodup) (hmem : pid ∈ s.players) :
    cardBag s4 = cardBag s ∧ s4.players = s.players := by
  unfold drawPhase at h
  cases b with
  | false =>
    injection h with h2
    subst h2
    exact ⟨rfl, rfl⟩
  | true =>
    cases hl : s.cards.getLast? with
    | none =>
      rw [hl] at h
      exact Except.noConfusion h
    | some c =>
      rw [hl] at h
      injection h with h2
      subst h2
      refine ⟨?_, rfl⟩
      unfold cardBag
      have hdecomp : (s.cards : Multiset Card)
          = ((s.cards.dropLast : List Card) : Multiset Card) + ([c] : Multiset Card) := by
        rw [show s.cards = s.cards.dropLast ++ [c] from getLast_decomp s.cards c hl]
        rw [show (s.cards.dropLast ++ [c]).dropLast = s.cards.dropLast from by
          rw [List.dropLast_concat]]
        rfl
      have hhb := handsBag_update s.players s.hands pid (s.hands pid ++ [c]) hnd hmem
      have happ : ((s.hands pid ++ [c] : List Card) : Multiset Card)
          = ((s.hands pid : List Card) : Multiset Card) + ([c] : Multiset Card) := rfl
      rw [happ] at hhb
      have hup : handsBag s.players (updateHand s.hands pid (s.hands pid ++ [c]))
          = handsBag s.players s.hands + ([c] : Multiset Card) := by
        have hcancel : handsBag s.players (updateHand s.hands pid (s.hands pid ++ [c]))
              + ((s.hands pid : List Card) : Multiset Card)
            = (handsBag s.players s.hands + ([c] : Multiset Card))
              + ((s.hands pid : List Card) : Multiset Card) := by
          rw [hhb]
          abel
        exact add_right_cancel hcancel
      show ((s.cards.dropLast : List Card) : Multiset Card) + (s.discards : Multiset Card)
            + handsBag s.players (updateHand s.hands pid (s.hands pid ++ [c]))
          = (s.cards : Multiset Card) + (s.discards : Multiset Card)
            + handsBag s.players s.hands
      rw [hup, hdecomp]
      abel

/-- Picking any valid index and erasing it permutes the list. -/
theorem getD_cons_eraseIdx_perm (xs : List Card) :
    ∀ i : Nat, i < xs.length → (xs.getD i ⟨0, 0⟩ :: xs.eraseIdx i).Perm xs := by
  induction xs with
  | nil =>
    intro i h
    simp at h
  | cons x xs ih =>
    intro i h
    cases i with
    | zero => exact List.Perm.refl (x :: xs)
    | succ i =>
      have h2 : i < xs.length := by simpa using h
      show (xs.getD i ⟨0, 0⟩ :: x :: xs.eraseIdx i).Perm (x :: xs)
      exact (List.Perm.swap x (xs.getD i ⟨0, 0⟩) (xs.eraseIdx i)).trans ((ih i h2).cons x)

/-- The pick-and-remove shuffle permutes its input when fueled enough. -/
theorem shuffleAux_perm (fuel : Nat) :
    ∀ (xs : List Card) (g : Rng), xs.length ≤ fuel → ((shuffleAux fuel xs g).1).Perm xs := by
  induction fuel with
  | zero =>
    intro xs g h
    have h2 : xs = [] := List.length_eq_zero.mp (Nat.le_zero.mp h)
    subst h2
    exact List.Perm.refl []
  | succ fuel ih =>
    intro xs g h
    by_cases he : xs.isEmpty = true
    · have h2 : xs = [] := List.isEmpty_iff.mp he
      subst h2
      exact List.Perm.refl []
    · have hpos : 0 < xs.length := by
        cases xs with
        | nil => simp at he
        | cons a l => simp
      have hi : g.next.1 % xs.length < xs.length := Nat.mod_lt _ hpos
      have hlen2 : (xs.eraseIdx (g.next.1 % xs.length)).length ≤ fuel := by
        rw [List.length_eraseIdx_of_lt hi]
        omega
      show ((shuffleAux (fuel + 1) xs g).1).Perm xs
      unfold shuffleAux
      rw [if_neg he]
      exact ((ih _ g.next.2 hlen2).cons _).trans (getD_cons_eraseIdx_perm xs _ hi)

/-- random.shuffle produces a permutation of its input. -/
theorem shuffle_perm (xs : List Card) (g : Rng) : ((shuffle xs g).1).Perm xs :=
  shuffleAux_perm xs.length xs g (Nat.le_refl _)

/-- The end-of-turn reshuffle preserves the card bag and the player list. -/
theorem reshufflePhase_bag (s : GameState) (g : Rng) :
    cardBag (reshufflePhase s g).1 = cardBag s ∧ (reshufflePhase s g).1.players = s.players := by
  unfold reshufflePhase
  by_cases h : (s.cards.length == 0) = true
  · rw [if_pos h]
    have hc : s.cards = [] := by
      have h2 : s.cards.length = 0 := by simpa using h
      exact List.length_eq_zero.mp h2
    refine ⟨?_, rfl⟩
    unfold cardBag
    have hperm : (((shuffle s.discards g).1 : List Card) : Multiset Card)
        = (s.discards : Multiset Card) :=
      Multiset.coe_eq_coe.mpr (shuffle_perm s.discards g)
    show (((shuffle s.discards g).1 : List Card) : Multiset Card)
          + (([] : List Card) : Multiset Card) + handsBag s.players s.hands
        = (s.cards : Multiset Card) + (s.discards : Multiset Card) + handsBag s.players s.hands
    rw [hperm, hc]
    show (s.discards : Multiset Card) + 0 + handsBag s.players s.hands
        = 0 + (s.discards : Multiset Card) + handsBag s.players s.hands
    rw [add_zero, zero_add]
  · rw [if_neg h]
    exact ⟨rfl, rfl⟩

/-- reinforce only adds units: the card piles, players and hands survive. -/
theorem reinforce_cards_frame (s : GameState) (pid k : Nat) (g : Rng)
    (s2 : GameState) (upd : List Nat) (g1 : Rng)
    (h : reinforce s pid k g = Except.ok (s2, upd, g1)) :
    s2.cards = s.cards ∧ s2.discards = s.discards ∧
    s2.players = s.players ∧ s2.hands = s.hands := by
  unfold reinforce at h
  cases hch : choices (ownedNodes s pid) (weightsOf s pid) k g with
  | error e =>
    rw [hch] at h
    exact Except.noConfusion h
  | ok res =>
    obtain ⟨ps, g2⟩ := res
    simp only [hch] at h
    injection h with h2
    injection h2 with h3 h4
    subst h3
    have hf := applyPlacements_frame ps s
    exact ⟨hf.2.2.2.2.1, hf.2.2.2.2.2.1, hf.2.2.2.2.2.2.1, hf.2.2.2.2.2.2.2⟩

/-- turnSetup (trio trade plus reinforcement placement) preserves the card
bag and the player list. -/
theorem turnSetup_bag (s : GameState) (pid : Nat) (g : Rng) (s2 : GameState)
    (n1 : Nat) (upd : List Nat) (g1 : Rng)
    (h : turnSetup s pid g = Except.ok (s2, n1, upd, g1))
    (hnd : s.players.Nodup) (hmem : pid ∈ s.players) :
    cardBag s2 = cardBag s ∧ s2.players = s.players := by
  unfold turnSetup at h
  rcases hct : get_card_trio (s.hands pid) with ⟨o, hand2⟩
  cases o with
  | none =>
    have he : hand2 = s.hands pid := by
      have h2 := get_card_trio_fst_none (s.hands pid) (by rw [hct])
      rw [hct] at h2
      injection h2 with h3 h4
    subst he
    have hcr : computeReinforcements (ownedNodes s pid).length (s.hands pid) s.discards
        s.cardBonus
        = (max 3 ((ownedNodes s pid).length / 3), s.hands pid, s.discards, s.cardBonus) := by
      unfold computeReinforcements
      rw [hct]
    simp only [hcr] at h
    cases hre : reinforce (applyTrade s pid (s.hands pid) s.discards s.cardBonus) pid
        (max 3 ((ownedNodes s pid).length / 3)) g with
    | error e =>
      rw [hre] at h
      exact Except.noConfusion h
    | ok res =>
      obtain ⟨s3, upd2, g2⟩ := res
      simp only [hre] at h
      have hfr := reinforce_cards_frame _ pid _ g s3 upd2 g2 hre
      simp only [Except.ok.injEq, Prod.mk.injEq] at h
      obtain ⟨h5, h6, h7, h8⟩ := h
      subst h5
      have hb1 : cardBag (applyTrade s pid (s.hands pid) s.discards s.cardBonus)
          = cardBag s := by
        unfold cardBag applyTrade
        show (s.cards : Multiset Card) + (s.discards : Multiset Card)
              + handsBag s.players (updateHand s.hands pid (s.hands pid))
            = (s.cards : Multiset Card) + (s.discards : Multiset Card)
              + handsBag s.players s.hands
        have hhb := handsBag_update s.players s.hands pid (s.hands pid) hnd hmem
        rw [add_right_cancel hhb]
      constructor
      · have hb2 := cardBag_congr s3 _ hfr.1 hfr.2.1 hfr.2.2.1 hfr.2.2.2
        exact hb2.trans hb1
      · exact hfr.2.2.1
  | some trio =>
    have hcr : computeReinforcements (ownedNodes s pid).length (s.hands pid) s.discards
        s.cardBonus = (max 3 ((ownedNodes s pid).length / 3) + s.cardBonus, hand2,
          s.discards ++ trio, s.cardBonus + 5) := by
      unfold computeReinforcements
      rw [hct]
    simp only [hcr] at h
    cases hre : reinforce (applyTrade s pid hand2 (s.discards ++ trio) (s.cardBonus + 5)) pid
        (max 3 ((ownedNodes s pid).length / 3) + s.cardBonus) g with
    | error e =>
      rw [hre] at h
      exact Except.noConfusion h
    | ok res =>
      obtain ⟨s3, upd2, g2⟩ := res
      simp only [hre] at h
      have hfr := reinforce_cards_frame _ pid _ g s3 upd2 g2 hre
      simp only [Except.ok.injEq, Prod.mk.injEq] at h
      obtain ⟨h5, h6, h7, h8⟩ := h
      subst h5
      have hsplit := get_card_trio_some_bag (s.hands pid) trio hand2 hct
      have hb1 : cardBag (applyTrade s pid hand2 (s.discards ++ trio) (s.cardBonus + 5))
          = cardBag s := by
        unfold cardBag applyTrade
        show (s.cards : Multiset Card)
              + ((s.discards ++ trio : List Card) : Multiset Card)
              + handsBag s.players (updateHand s.hands pid hand2)
            = (s.cards : Multiset Card) + (s.discards : Multiset Card)
              + handsBag s.players s.hands
        have hhb := handsBag_update s.players s.hands pid hand2 hnd hmem
        rw [hsplit] at hhb
        have h9 : handsBag s.players (updateHand s.hands pid hand2) + (trio : Multiset Card)
            = handsBag s.players s.hands := by
          have h10 : handsBag s.players (updateHand s.hands pid hand2)
                + (trio : Multiset Card) + (hand2 : Multiset Card)
              = handsBag s.players s.hands + (hand2 : Multiset Card) := by
            calc handsBag s.players (updateHand s.hands pid hand2)
                  + (trio : Multiset Card) + (hand2 : Multiset Card)
                = handsBag s.players (updateHand s.hands pid hand2)
                  + ((hand2 : Multiset Card) + (trio : Multiset Card)) := by abel
              _ = handsBag s.players s.hands + (hand2 : Multiset Card) := hhb
          exact add_right_cancel h10
        have h11 : ((s.discards ++ trio : List Card) : Multiset Card)
            = (s.discards : Multiset Card) + (trio : Multiset Card) := rfl
        rw [h11, ← h9]
        abel
      constructor
      · have hb2 := cardBag_congr s3 _ hfr.1 hfr.2.1 hfr.2.2.1 hfr.2.2.2
        exact hb2.trans hb1
      · exact hfr.2.2.1

/-- Claim C9: every turn that completes without raising preserves the
multiset union of the draw pile, the discard pile and all players' hands —
trading a trio, drawing on conquest and reshuffling discards only move
cards, never create, destroy or duplicate them. -/
theorem claim_C9 (s : GameState) (pid : Nat) (attacks : List (Nat × Nat))
    (cont : Nat → Nat → Bool) (g : Rng) (hnd : s.players.Nodup) (hmem : pid ∈ s.players)
    (hok : (do_turn s pid attacks cont g).isOk = true) :
    (do_turn s pid attacks cont g).map (fun out => cardBag out.1)
      = Except.ok (cardBag s) := by
  unfold do_turn at hok ⊢
  by_cases h0 : ((ownedNodes s pid).length == 0) = true
  · rw [if_pos h0]
    rfl
  · rw [if_neg h0] at hok ⊢
    cases hts : turnSetup s pid g with
    | error e =>
      rw [hts] at hok
      exact Bool.noConfusion hok
    | ok out1 =>
      obtain ⟨s2, n1, upd, g1⟩ := out1
      simp only [hts] at hok ⊢
      have hbag1 := turnSetup_bag s pid g s2 n1 upd g1 hts hnd hmem
      cases hap : attackPhase cont s2 attacks g1 with
      | error e =>
        rw [hap] at hok
        exact Bool.noConfusion hok
      | ok out2 =>
        obtain ⟨s3, evs, asucc, g2⟩ := out2
        simp only [hap] at hok ⊢
        have hf := attackPhase_cards_frame cont attacks s2 g1 (s3, evs, asucc, g2) hap
        have hbag2 : cardBag s3 = cardBag s2 :=
          cardBag_congr s3 s2 hf.1 hf.2.1 hf.2.2.1 hf.2.2.2
        cases hdp : drawPhase s3 pid asucc with
        | error e =>
          rw [hdp] at hok
          exact Bool.noConfusion hok
        | ok s4 =>
          simp only [hdp] at hok ⊢
          have hmem3 : pid ∈ s3.players := by
            rw [hf.2.2.1, hbag1.2]
            exact hmem
          have hnd3 : s3.players.Nodup := by
            rw [hf.2.2.1, hbag1.2]
            exact hnd
          have hbag3 := drawPhase_bag s3 pid asucc s4 hdp hnd3 hmem3
          have hbag4 := reshufflePhase_bag s4 g2
          simp only [Except.map]
          rw [hbag4.1, hbag3.1, hbag2, hbag1.1]

/-- Witness for claim C9: a full turn in which player 1 trades a trio on
the two-node fixture with one card left in the deck. -/
theorem claim_C9_witness :
    (do_turn fixTrioDeck 1 [] contTrue gZero).map (fun out => cardBag out.1)
      = Except.ok (cardBag fixTrioDeck) :=
  claim_C9 fixTrioDeck 1 [] contTrue gZero (by decide) (by decide) rfl

/-- Descending insertion grows the length by one. -/
theorem length_insertDesc (x : Nat) (l : List Nat) :
    (insertDesc x l).length = l.length + 1 := by
  induction l with
  | nil => rfl
  | cons y ys ih =>
    unfold insertDesc
    by_cases hyx : y < x
    · rw [if_pos hyx]
      rfl
    · rw [if_neg hyx]
      simp [ih]

/-- Sorting descending preserves the length. -/
theorem length_sortDesc (l : List Nat) : (sortDesc l).length = l.length := by
  induction l with
  | nil => rfl
  | cons x xs ih =>
    show (insertDesc x (sortDesc xs)).length = xs.length + 1
    rw [length_insertDesc, ih]

/-- rollList draws exactly n dice. -/
theorem length_rollList (n : Nat) (g : Rng) : ((rollList n g).1).length = n := by
  induction n generalizing g with
  | zero => rfl
  | succ n ih => simp [rollList, ih]

/-- roll_dice returns exactly n dice. -/
theorem length_roll_dice (n : Nat) (g : Rng) : ((roll_dice n g).1).length = n := by
  unfold roll_dice
  rw [length_sortDesc, length_rollList]

/-- Each zipped pair removes exactly one unit from one of the two sides. -/
theorem applyDice_sum (ps : List (Nat × Nat)) :
    ∀ na nd : Nat, ps.length ≤ na → ps.length ≤ nd →
      (applyDice ps na nd).1 + (applyDice ps na nd).2 + ps.length = na + nd := by
  induction ps with
  | nil =>
    intro na nd _ _
    simp [applyDice]
  | cons p ps ih =>
    intro na nd ha hd
    have ha2 : ps.length ≤ na - 1 := by
      simp only [List.length_cons] at ha
      omega
    have hd2 : ps.length ≤ nd - 1 := by
      simp only [List.length_cons] at hd
      omega
    have ha3 : ps.length ≤ na := by
      simp only [List.length_cons] at ha
      omega
    have hd3 : ps.length ≤ nd := by
      simp only [List.length_cons] at hd
      omega
    unfold applyDice
    by_cases hcmp : p.2 < p.1
    · rw [if_pos hcmp]
      have h2 := ih (na - 1) nd ha2 hd3
      simp only [List.length_cons]
      simp only [List.length_cons] at ha
      omega
    · rw [if_neg hcmp]
      have h2 := ih na (nd - 1) ha3 hd2
      simp only [List.length_cons]
      simp only [List.length_cons] at hd
      omega

/-- The battle loop's fuel never binds: any fuel of at least na + nd gives
the same result, so `battle` faithfully models the unbounded while-loop of
gamestate.py lines 199-209. -/
theorem battleAux_fuel (cont : Nat → Nat → Bool) :
    ∀ (fuel na nd : Nat) (g : Rng), na + nd ≤ fuel →
      battleAux cont fuel na nd g = battleAux cont (na + nd) na nd g := by
  intro fuel
  induction fuel using Nat.strong_induction_on with
  | _ fuel ih =>
    intro na nd g hle
    cases fuel with
    | zero =>
      have h0 : na + nd = 0 := Nat.le_zero.mp hle
      rw [h0]
    | succ f =>
      by_cases hc : 0 < na ∧ 0 < nd ∧ cont na nd = true
      · have hlen : ((roll_dice (min na 3) g).1.zip
            (roll_dice (min nd 2) (roll_dice (min na 3) g).2).1).length
            = min (min na 3) (min nd 2) := by
          rw [List.length_zip, length_roll_dice, length_roll_dice]
        have h1 : ((roll_dice (min na 3) g).1.zip
            (roll_dice (min nd 2) (roll_dice (min na 3) g).2).1).length ≤ na := by
          rw [hlen]
          omega
        have h2 : ((roll_dice (min na 3) g).1.zip
            (roll_dice (min nd 2) (roll_dice (min na 3) g).2).1).length ≤ nd := by
          rw [hlen]
          omega
        have hpos : 1 ≤ ((roll_dice (min na 3) g).1.zip
            (roll_dice (min nd 2) (roll_dice (min na 3) g).2).1).length := by
          rw [hlen]
          omega
        have hsum := applyDice_sum ((roll_dice (min na 3) g).1.zip
            (roll_dice (min nd 2) (roll_dice (min na 3) g).2).1) na nd h1 h2
        have hdec : (applyDice ((roll_dice (min na 3) g).1.zip
              (roll_dice (min nd 2) (roll_dice (min na 3) g).2).1) na nd).1
            + (applyDice ((roll_dice (min na 3) g).1.zip
              (roll_dice (min nd 2) (roll_dice (min na 3) g).2).1) na nd).2
            < na + nd := by
          omega
        obtain ⟨m, hm⟩ : ∃ m, na + nd = m + 1 := ⟨na + nd - 1, by omega⟩
        have e1 := ih f (by omega)
          (applyDice ((roll_dice (min na 3) g).1.zip
            (roll_dice (min nd 2) (roll_dice (min na 3) g).2).1) na nd).1
          (applyDice ((roll_dice (min na 3) g).1.zip
            (roll_dice (min nd 2) (roll_dice (min na 3) g).2).1) na nd).2
          (roll_dice (min nd 2) (roll_dice (min na 3) g).2).2 (by omega)
        have e2 := ih m (by omega)
          (applyDice ((roll_dice (min na 3) g).1.zip
            (roll_dice (min nd 2) (roll_dice (min na 3) g).2).1) na nd).1
          (applyDice ((roll_dice (min na 3) g).1.zip
            (roll_dice (min nd 2) (roll_dice (min na 3) g).2).1) na nd).2
          (roll_dice (min nd 2) (roll_dice (min na 3) g).2).2 (by omega)
        rw [hm]
        unfold battleAux
        rw [if_pos hc, if_pos hc]
        show battleAux cont f
            (applyDice ((roll_dice (min na 3) g).1.zip
              (roll_dice (min nd 2) (roll_dice (min na 3) g).2).1) na nd).1
            (applyDice ((roll_dice (min na 3) g).1.zip
              (roll_dice (min nd 2) (roll_dice (min na 3) g).2).1) na nd).2
            (roll_dice (min nd 2) (roll_dice (min na 3) g).2).2
          = battleAux cont m
            (applyDice ((roll_dice (min na 3) g).1.zip
              (roll_dice (min nd 2) (roll_dice (min na 3) g).2).1) na nd).1
            (applyDice ((roll_dice (min na 3) g).1.zip
              (roll_dice (min nd 2) (roll_dice (min na 3) g).2).1) na nd).2
            (roll_dice (min nd 2) (roll_dice (min na 3) g).2).2
        rw [e1, e2]
      · have hexitL : battleAux cont (f + 1) na nd g = (na, nd, g) := by
          unfold battleAux
          rw [if_neg hc]
        cases hnm : na + nd with
        | zero =>
          rw [hexitL]
          rfl
        | succ m =>
          have hexitR : battleAux cont (m + 1) na nd g = (na, nd, g) := by
            unfold battleAux
            rw [if_neg hc]
          rw [hexitL, hexitR]
